import Mathlib

/-!
Verification of the SeeUs MVP adaptive assessment engine.

The definitions below are shallow embeddings of the Python sources of the
repository (seeus_mvp/app.py, db.py, question_store.py, research_packet.py,
questions.py):
* pure functions are translated to Lean functions;
* the sqlite tables are modelled as lists of row records, with the SQL
  INSERT / UPDATE / SELECT statements translated to list operations;
* the Streamlit per-context mutable state (st.session_state) is modelled by
  explicit state records and state-passing step functions;
* timestamps are modelled as natural numbers supplied by the caller
  (the source reads a wall clock via now_iso);
* Python floats arising from parsing decimal literals in answer text are
  modelled as exact rationals.
-/

namespace SeeUs

/-- A question-bank entry as consumed by the engine: the fields `id`,
`dimension`, `is_primary` and `branch` of an entry of the loaded JSON bank
(app.py reads `q["id"]`, `q.get("dimension")`, `q.get("is_primary")`,
`q.get("branch")`). -/
structure Question where
  id : String
  dimension : String
  is_primary : Bool
  branch : Option String
deriving DecidableEq

/-- app.py: `PRIMARY_IDS = [q["id"] for q in QUESTIONS if q.get("is_primary")]`. -/
def primaryIds (bank : List Question) : List String :=
  (bank.filter (fun q => q.is_primary)).map (fun q => q.id)

/-- The per-(session, respondent) transient state kept in `st.session_state`
by app.py: the branch queue (key `branch_queue_{sid}_{respondent}`), the set
of dimensions that have already triggered a branch
(key `branch_used_dims_{sid}_{respondent}`), and the set `answered` of
question ids this respondent has stored responses for (recomputed from the
responses table on every rerun). -/
structure RespondentState where
  branchQueue : List String
  usedDims : List String
  answered : List String
deriving DecidableEq

/-- app.py `_next_question_id`: the head of the branch queue when the queue is
non-empty, otherwise the first id of `PRIMARY_IDS` not in `answered`,
otherwise `None` (rendered as the per-respondent done condition). -/
def nextQuestionId (bank : List Question) (st : RespondentState) : Option String :=
  match st.branchQueue with
  | qid :: _ => some qid
  | [] => (primaryIds bank).find? (fun qid => !(decide (qid ∈ st.answered)))

/-- app.py: `QUESTION_BY_ID = {q["id"]: q for q in QUESTIONS}`. A Python dict
comprehension keeps the last entry when an id is duplicated, hence the lookup
over the reversed bank. -/
def questionById (bank : List Question) (qid : String) : Option Question :=
  bank.reverse.find? (fun q => q.id == qid)

/-- Adding an element to a Python set: a no-op when already present. -/
def addUsedDim (d : String) (dims : List String) : List String :=
  if d ∈ dims then dims else d :: dims

/-- app.py `_queue_branch`: look the target up in `QUESTION_BY_ID` (give up on
a miss); give up if its dimension has already triggered a branch; enqueue only
if the target is neither already queued nor already answered, recording its
dimension as used. -/
def queueBranch (bank : List Question) (qid : String) (st : RespondentState) :
    RespondentState :=
  match questionById bank qid with
  | none => st
  | some q0 =>
    if q0.dimension ∈ st.usedDims then st
    else if qid ∉ st.branchQueue ∧ qid ∉ st.answered then
      { st with branchQueue := st.branchQueue ++ [qid],
                usedDims := addUsedDim q0.dimension st.usedDims }
    else st

/-- Python `str.strip()` on the character list: drop whitespace from both
ends. -/
def stripChars (cs : List Char) : List Char :=
  ((cs.dropWhile Char.isWhitespace).reverse.dropWhile Char.isWhitespace).reverse

/-- Python `(latest_answer_text or "").strip()`. -/
def pyStrip (s : String) : String := (stripChars s.toList).asString

/-- app.py `_maybe_queue_branches`: no branch target means no-op; otherwise
the branch triggers exactly when the stripped answer text has fewer than 30
characters. -/
def maybeQueueBranches (bank : List Question) (answerText : String)
    (q : Question) (st : RespondentState) : RespondentState :=
  match q.branch with
  | none => st
  | some b =>
      if (pyStrip answerText).length < 30 then queueBranch bank b st else st

/-- The pop shared by the Save and Skip handlers (app.py): remove the queue
head when it is exactly the question just handled. -/
def popIfHead (qid : String) (l : List String) : List String :=
  match l with
  | [] => []
  | h :: t => if h = qid then t else h :: t

/-- The `Save and next` button handler (app.py): the response is persisted,
branch targets are examined against the pre-save `answered` set, the queue
head is popped when it is the just-answered question, and the rerun recomputes
`answered`, which from then on contains the answered question id. -/
def saveNext (bank : List Question) (q : Question) (answerText : String)
    (st : RespondentState) : RespondentState :=
  let st1 := maybeQueueBranches bank answerText q st
  { st1 with branchQueue := popIfHead q.id st1.branchQueue,
             answered := q.id :: st1.answered }

/-- The `Skip` button handler (app.py): a response with empty text is
persisted and the queue head is popped when it matches; the handler never
examines branch targets. The rerun recomputes `answered`. -/
def skipStep (q : Question) (st : RespondentState) : RespondentState :=
  { st with branchQueue := popIfHead q.id st.branchQueue,
            answered := q.id :: st.answered }

/-- One user interaction on the assessment page. -/
inductive AssessOp where
  | save (q : Question) (answerText : String)
  | skip (q : Question)

/-- The state transition of one assessment-page interaction. -/
def stepAssess (bank : List Question) (st : RespondentState) :
    AssessOp → RespondentState
  | .save q txt => saveNext bank q txt st
  | .skip q => skipStep q st

/-- The branch targets actually enqueued by one interaction: the suffix that
`_maybe_queue_branches` appended to the branch queue (empty for a skip, which
never calls it). -/
def enqueuedBy (bank : List Question) (st : RespondentState) :
    AssessOp → List String
  | .save q txt =>
      (maybeQueueBranches bank txt q st).branchQueue.drop st.branchQueue.length
  | .skip _ => []

/-- All branch targets enqueued over a whole interaction sequence. -/
def runAssessLog (bank : List Question) (st : RespondentState) :
    List AssessOp → List String
  | [] => []
  | op :: ops =>
      enqueuedBy bank st op ++ runAssessLog bank (stepAssess bank st op) ops

/-- Two enqueued targets resolve to different dimensions in the bank. -/
def dimDiff (bank : List Question) (e1 e2 : String) : Prop :=
  (questionById bank e1).map Question.dimension ≠
    (questionById bank e2).map Question.dimension

/-- Every logged branch target resolves in the bank to a dimension already
recorded as used. -/
def logDimsOk (bank : List Question) (st : RespondentState)
    (log : List String) : Prop :=
  ∀ e ∈ log, ∃ q0, questionById bank e = some q0 ∧ q0.dimension ∈ st.usedDims

/-- A small concrete bank used to exercise the theorems: two primary
questions, each with a branch target, plus the two non-primary targets
(ids, dimensions and branch wiring as in seeus_mvp/questions.py). -/
def qValues : Question :=
  ⟨"values_hierarchy", "values", true, some "values_example_followup"⟩

/-- Second primary question of the concrete bank. -/
def qCost : Question :=
  ⟨"cost_tolerance", "cost", true, some "cost_line_followup"⟩

/-- Branch target of `qValues`. -/
def qValuesFollowup : Question :=
  ⟨"values_example_followup", "values", false, none⟩

/-- Branch target of `qCost`. -/
def qCostFollowup : Question :=
  ⟨"cost_line_followup", "cost", false, none⟩

/-- The concrete bank. -/
def bankEx : List Question := [qValues, qCost, qValuesFollowup, qCostFollowup]

/-- The fresh per-(session, respondent) state at session start. -/
def stEmpty : RespondentState := ⟨[], [], []⟩

/-- One stored row of the `responses` table for a respondent, with the
dimension tag the handlers serialize into `answer_json`. -/
structure Response where
  questionId : String
  answerText : String
  dimension : Option String
deriving DecidableEq

/-- The per-(session, respondent) mirror-gate state: the acknowledgement flag
`mirror_done_{sid}_{respondent}` of `st.session_state` and the rows of the
responses table for this session and respondent. -/
structure MirrorState where
  mirrorDone : Bool
  responses : List Response
deriving DecidableEq

/-- app.py: `primary_done = sum([1 for qid in PRIMARY_IDS if qid in answered])`
where `answered` is the set of question ids of the stored rows. -/
def primaryDone (bank : List Question) (resp : List Response) : Nat :=
  ((primaryIds bank).filter
    (fun qid => resp.any (fun r => r.questionId == qid))).length

/-- The mirror-moment gate condition (app.py):
`(not st.session_state[mm_key]) and primary_done >= 5`. -/
def mirrorShown (bank : List Question) (st : MirrorState) : Bool :=
  !st.mirrorDone && decide (5 ≤ primaryDone bank st.responses)

/-- The `Continue` button of the gate (app.py): acknowledge. -/
def mirrorContinue (st : MirrorState) : MirrorState :=
  { st with mirrorDone := true }

/-- The `Save correction and continue` button (app.py): persist the stripped
correction as a synthetic answer under the reserved `mirror_correction`
question id with dimension `meta`, then acknowledge. -/
def mirrorSaveCorrection (txt : String) (st : MirrorState) : MirrorState :=
  { st with
      responses :=
        st.responses ++ [⟨"mirror_correction", pyStrip txt, some "meta"⟩],
      mirrorDone := true }

/-- One interaction affecting the mirror-gate state. -/
inductive SessionOp where
  | save (q : Question) (txt : String)
  | skip (q : Question)
  | mirrorOk
  | mirrorCorrect (txt : String)

/-- The mirror-gate state transition of one interaction: the Save and Skip
handlers append a response row tagged with the question dimension; the two
gate buttons acknowledge. No interaction resets the acknowledgement flag. -/
def stepMirror (st : MirrorState) : SessionOp → MirrorState
  | .save q txt =>
      { st with responses := st.responses ++ [⟨q.id, pyStrip txt, some q.dimension⟩] }
  | .skip q =>
      { st with responses := st.responses ++ [⟨q.id, "", some q.dimension⟩] }
  | .mirrorOk => mirrorContinue st
  | .mirrorCorrect txt => mirrorSaveCorrection txt st

/-- Run a sequence of interactions over the mirror-gate state. -/
def runMirror (st : MirrorState) : List SessionOp → MirrorState
  | [] => st
  | op :: ops => runMirror (stepMirror st op) ops

/-- A row of the `sessions` table (db.py). -/
structure Session where
  session_id : String
  relationship_id : String
  mode : String
  tone_profile : Option String
  started_at : Nat
  ended_at : Option Nat
deriving DecidableEq

/-- db.py `create_session`: a plain INSERT; the only possible failure is the
sqlite PRIMARY KEY violation on a duplicate `session_id` (modelled as
`none`). No open-session check is performed anywhere in the function. -/
def create_session (now : Nat) (sid rid mode : String)
    (tone : Option String) (db : List Session) : Option (List Session) :=
  if db.any (fun s => s.session_id == sid) then none
  else some (db ++ [⟨sid, rid, mode, tone, now, none⟩])

/-- The open sessions of a relationship:
`WHERE relationship_id=? AND ended_at IS NULL` (db.py `get_open_session`,
before the ordering clause). -/
def openSessions (rid : String) (db : List Session) : List Session :=
  db.filter (fun s => s.relationship_id == rid && s.ended_at.isNone)

/-- db.py `get_open_session`: the open session with the greatest `started_at`
(ORDER BY started_at DESC LIMIT 1; scan order breaks the ties SQL leaves
unspecified). -/
def get_open_session (rid : String) (db : List Session) : Option Session :=
  (openSessions rid db).foldl
    (fun acc s =>
      match acc with
      | none => some s
      | some t => if t.started_at < s.started_at then some s else acc)
    none

/-- db.py `end_session`:
`UPDATE sessions SET ended_at=? WHERE session_id=?` — unconditional: unlike
`mark_invite_used` there is no `IS NULL` guard on the current value. -/
def end_session (now : Nat) (sid : String) (db : List Session) : List Session :=
  db.map (fun s =>
    if s.session_id == sid then { s with ended_at := some now } else s)

/-- The sessions table after a first start on relationship `r`. -/
def dbAfterS1 : List Session := [⟨"s1", "r", "duo", none, 0, none⟩]

/-- The sessions table after a second start on relationship `r`. -/
def dbAfterS2 : List Session :=
  [⟨"s1", "r", "duo", none, 0, none⟩, ⟨"s2", "r", "duo", none, 1, none⟩]

/-- A sessions table holding one open session. -/
def dbOneOpen : List Session := [⟨"s1", "r", "solo", none, 0, none⟩]

/-- A row of the `invites` table (db.py). -/
structure Invite where
  token : String
  relationship_id : String
  respondent : String
  created_at : Nat
  used_at : Option Nat
deriving DecidableEq

/-- db.py `create_invite`: INSERT with `used_at` NULL; the only possible
failure is the PRIMARY KEY violation on a duplicate token. -/
def create_invite (now : Nat) (tok rid resp : String) (db : List Invite) :
    Option (List Invite) :=
  if db.any (fun i => i.token == tok) then none
  else some (db ++ [⟨tok, rid, resp, now, none⟩])

/-- db.py `get_invite`: `SELECT * FROM invites WHERE token=?` — the used flag
is not consulted. -/
def get_invite (tok : String) (db : List Invite) : Option Invite :=
  db.find? (fun i => i.token == tok)

/-- db.py `mark_invite_used`:
`UPDATE invites SET used_at=? WHERE token=? AND used_at IS NULL`. -/
def mark_invite_used (now : Nat) (tok : String) (db : List Invite) :
    List Invite :=
  db.map (fun i =>
    if i.token == tok && i.used_at.isNone then { i with used_at := some now }
    else i)

/-- The browsing-context state relevant to invite marking: the invites table,
the `session_id` entry of `st.session_state`, and the per-context
`invite_used_{token}` flag. -/
structure InviteContext where
  invites : List Invite
  sessionId : Option String
  localMarked : Bool
deriving DecidableEq

/-- The respondent-lock block of the Assess page (app.py): it runs once a
session id is in `st.session_state` and the context is invite-locked in a duo
session; on its first run it marks the invite used — before any answer is
submitted. Without a session id the page stops earlier and nothing is
marked. -/
def renderAssess (now : Nat) (tok : String) (ctx : InviteContext) :
    InviteContext :=
  match ctx.sessionId with
  | none => ctx
  | some _ =>
      if ctx.localMarked then ctx
      else { ctx with invites := mark_invite_used now tok ctx.invites,
                      localMarked := true }

/-- An unused invite for token `tok`. -/
def invEx : Invite := ⟨"tok", "r", "B", 0, none⟩

/-- A raw entry of the question-bank JSON as seen by the loader
(question_store.py): the `id` key may be missing (`none`); the branch field
is carried along to show that validation never inspects it. -/
structure RawQuestion where
  id : Option String
  branch : Option String
deriving DecidableEq

/-- The loop of `_validate_bank` (question_store.py) with its `seen` set:
reject a missing id, reject an id already seen, otherwise continue. -/
def validateBankLoop : List RawQuestion → List String → Except String Unit
  | [], _ => .ok ()
  | q :: rest, seen =>
    match q.id with
    | none => .error "Each question must have an id"
    | some i =>
        if i ∈ seen then .error ("Duplicate question id: " ++ i)
        else validateBankLoop rest (i :: seen)

/-- question_store.py `_validate_bank` on a JSON array (the non-list check
precedes this typed embedding): duplicate-id and missing-id detection only. -/
def validate_bank (bank : List RawQuestion) : Except String Unit :=
  validateBankLoop bank []

/-- Whether some entry has a branch target naming no question id of the
bank. -/
def danglingBranch (bank : List RawQuestion) : Bool :=
  bank.any (fun q =>
    match q.branch with
    | none => false
    | some b => !(bank.any (fun q2 => q2.id == some b)))

/-- The ids present in the bank entries. -/
def bankIds (bank : List RawQuestion) : List String :=
  bank.filterMap (fun q => q.id)

/-- A one-entry bank whose branch target names no existing id. -/
def bankDangling : List RawQuestion := [⟨some "a", some "zzz"⟩]

/-- The value of a run of decimal digit characters. -/
def digitsVal (ds : List Char) : Nat :=
  ds.foldl (fun acc c => 10 * acc + (c.toNat - 48)) 0

/-- The scanner of the regex `(?<!\d)(\d+(?:\.\d+)?)` used by
`find_closeness` (research_packet.py) and `_extract_first_0_10` (app.py):
every maximal digit run, optionally extended by a dot and a further digit
run, read as an exact rational (Python reads a float). A match never starts
inside a digit run, which the maximal-run consumption guarantees. -/
def scanNums (cs : List Char) : List ℚ :=
  match cs with
  | [] => []
  | c :: rest =>
    if c.isDigit then
      match h1 : (c :: rest).dropWhile Char.isDigit with
      | '.' :: d :: rest2 =>
        if d.isDigit then
          ((digitsVal ((c :: rest).takeWhile Char.isDigit) : ℚ) +
            (digitsVal ((d :: rest2).takeWhile Char.isDigit) : ℚ) /
              (10 : ℚ) ^ ((d :: rest2).takeWhile Char.isDigit).length) ::
            scanNums ((d :: rest2).dropWhile Char.isDigit)
        else
          (digitsVal ((c :: rest).takeWhile Char.isDigit) : ℚ) ::
            scanNums ((c :: rest).dropWhile Char.isDigit)
      | _ =>
        (digitsVal ((c :: rest).takeWhile Char.isDigit) : ℚ) ::
          scanNums ((c :: rest).dropWhile Char.isDigit)
    else
      scanNums rest
  termination_by cs.length
  decreasing_by
  · have hm1 : ('.' :: d :: rest2).length ≤ (c :: rest).length := by
      rw [← h1]
      exact (List.dropWhile_suffix Char.isDigit).sublist.length_le
    have hm2 : ((d :: rest2).dropWhile Char.isDigit).length ≤ (d :: rest2).length :=
      (List.dropWhile_suffix Char.isDigit).sublist.length_le
    simp only [List.length_cons] at hm1 hm2 ⊢
    omega
  · have hc : c.isDigit = true := by assumption
    have he : (c :: rest).dropWhile Char.isDigit = rest.dropWhile Char.isDigit := by
      rw [List.dropWhile_cons, if_pos hc]
    have hm : (rest.dropWhile Char.isDigit).length ≤ rest.length :=
      (List.dropWhile_suffix Char.isDigit).sublist.length_le
    rw [he]
    simp only [List.length_cons]
    omega
  · have hc : c.isDigit = true := by assumption
    have he : (c :: rest).dropWhile Char.isDigit = rest.dropWhile Char.isDigit := by
      rw [List.dropWhile_cons, if_pos hc]
    have hm : (rest.dropWhile Char.isDigit).length ≤ rest.length :=
      (List.dropWhile_suffix Char.isDigit).sublist.length_le
    rw [he]
    simp only [List.length_cons]
    omega
  · simp only [List.length_cons]
    omega

/-- `find_closeness` (research_packet.py, identical to `_first_0_10` of
scoring.py and `_extract_first_0_10` of app.py): first parsed number in the
inclusive range 0 to 10. -/
def find_closeness (text : String) : Option ℚ :=
  (scanNums text.toList).find? (fun n => decide (0 ≤ n) && decide (n ≤ 10))

/-- Python `dict.get(key, "")` over an association-list model of the latest
answer maps. -/
def lookupD (m : List (String × String)) (k : String) : String :=
  match m.find? (fun kv => kv.1 == k) with
  | some kv => kv.2
  | none => ""

/-- The character class of the `token_set` regex (research_packet.py):
an ASCII letter or the apostrophe, written by code point 39. -/
def isTokenChar (c : Char) : Bool := c.isAlpha || c == Char.ofNat 39

/-- Maximal runs of characters satisfying `p`, as strings (the behavior of
`re.findall` with a greedy single-class pattern, before length filtering). -/
def runsOf (p : Char → Bool) (cs : List Char) : List String :=
  match cs with
  | [] => []
  | c :: rest =>
    if p c then
      ((c :: rest).takeWhile p).asString :: runsOf p ((c :: rest).dropWhile p)
    else
      runsOf p rest
  termination_by cs.length
  decreasing_by
  · have hc : p c = true := by assumption
    have he : (c :: rest).dropWhile p = rest.dropWhile p := by
      rw [List.dropWhile_cons, if_pos hc]
    have hm : (rest.dropWhile p).length ≤ rest.length :=
      (List.dropWhile_suffix p).sublist.length_le
    rw [he]
    simp only [List.length_cons]
    omega
  · simp only [List.length_cons]
    omega

/-- `token_set` (research_packet.py): tokens of the lowercased text matching
the letter-or-apostrophe class, repeated — maximal class runs of length at
least 4. -/
def token_set (t : String) : List String :=
  (runsOf isTokenChar (t.toList.map Char.toLower)).filter (fun s => 4 ≤ s.length)

/-- One evidence line of a contradiction: the source renders a labeled number
as the string `{label}: {value}` with Python float formatting, or emits plain
text; the number is kept symbolic here. -/
inductive Evidence where
  | num (label : String) (value : ℚ)
  | text (s : String)
deriving DecidableEq

/-- A contradiction record `{"who": ..., "headline": ..., "evidence": ...}`
(research_packet.py `add_gap`). -/
structure Contradiction where
  who : String
  headline : String
  evidence : List Evidence
deriving DecidableEq

/-- research_packet.py `detect_contradictions`: in non-solo mode, (a) the
closeness-gap check reads the answers stored under question id
`closeness_space` on both sides, extracts the first in-range number of each,
and emits a pair contradiction when both are present and at least 4 apart;
(b) the lexical polarity check tokenizes the concatenated answers under
`values_top2` and `one_boundary` and fires on freedom versus
control/structure in either direction. -/
def detect_contradictions (latest_a latest_b : List (String × String))
    (mode : String) : List Contradiction :=
  let gap : List Contradiction :=
    if mode ≠ "solo" then
      match find_closeness (lookupD latest_a "closeness_space"),
            find_closeness (lookupD latest_b "closeness_space") with
      | some ca, some cb =>
          if 4 ≤ |ca - cb| then
            [⟨"pair", "Closeness vs space needs appear far apart",
              [.num "A closeness number" ca, .num "B closeness number" cb]⟩]
          else []
      | _, _ => []
    else []
  let pol : List Contradiction :=
    if mode ≠ "solo" then
      let va := token_set
        (lookupD latest_a "values_top2" ++ " " ++ lookupD latest_a "one_boundary")
      let vb := token_set
        (lookupD latest_b "values_top2" ++ " " ++ lookupD latest_b "one_boundary")
      if ("freedom" ∈ va ∧ ("control" ∈ vb ∨ "structure" ∈ vb)) ∨
         ("freedom" ∈ vb ∧ ("control" ∈ va ∨ "structure" ∈ va)) then
        [⟨"pair", "Freedom vs structure could become a recurring negotiation",
          [.text "One side emphasizes freedom; the other emphasizes control/structure (token check)."]⟩]
      else []
    else []
  gap ++ pol

/-- Latest-answer map where A answered the closeness question of the bank. -/
def mapA3 : List (String × String) := [("closeness_numeric", "3")]

/-- Latest-answer map where B answered the closeness question of the bank. -/
def mapB9 : List (String × String) := [("closeness_numeric", "9")]

/-- Latest-answer map with the number stored under the id the detector
reads. -/
def mapA3space : List (String × String) := [("closeness_space", "3")]

/-- Latest-answer map with the number stored under the id the detector
reads. -/
def mapB9space : List (String × String) := [("closeness_space", "9")]

/-- Characterization of `List.find?` with the not-yet-answered predicate:
a found element is in the list, unanswered, and every element strictly before
it is answered. -/
theorem find_first_unanswered {l ans : List String} {a : String}
    (h : l.find? (fun x => !(decide (x ∈ ans))) = some a) :
    a ∈ l ∧ a ∉ ans ∧ ∀ p ∈ l.takeWhile (fun x => decide (x ≠ a)), p ∈ ans := by
  induction l with
  | nil => simp [List.find?] at h
  | cons b t ih =>
    by_cases hb : b ∈ ans
    · rw [show (b :: t).find? (fun x => !(decide (x ∈ ans))) =
            t.find? (fun x => !(decide (x ∈ ans))) by simp [List.find?, hb]] at h
      obtain ⟨hmem, hnot, hpre⟩ := ih h
      refine ⟨List.mem_cons_of_mem _ hmem, hnot, ?_⟩
      intro p hp
      by_cases hba : b = a
      · subst hba
        exact absurd hb hnot
      · rw [show (b :: t).takeWhile (fun x => decide (x ≠ a)) =
              b :: t.takeWhile (fun x => decide (x ≠ a)) by
            simp [List.takeWhile_cons, hba]] at hp
        rcases List.mem_cons.mp hp with rfl | hp2
        · exact hb
        · exact hpre p hp2
    · have h2 : (b :: t).find? (fun x => !(decide (x ∈ ans))) = some b := by
        simp [List.find?, hb]
      rw [h2] at h
      have hba : b = a := by simpa using h
      subst hba
      refine ⟨List.mem_cons_self _ _, hb, ?_⟩
      intro p hp
      rw [show (b :: t).takeWhile (fun x => decide (x ≠ b)) = [] by
        simp [List.takeWhile_cons]] at hp
      exact absurd hp (List.not_mem_nil p)

/-- C1: within an open session, the next question for a respondent is the head
of the branch queue when the queue is non-empty; with an empty queue it is the
first primary question in bank order not yet answered by the respondent (every
primary listed before it is answered); when every primary is answered it is
`none` (the per-respondent done condition); and a returned question that is
not the head of the branch queue is always primary. -/
theorem nextQuestionId_spec (bank : List Question) (st : RespondentState) :
    (∀ q qs, st.branchQueue = q :: qs → nextQuestionId bank st = some q) ∧
    (∀ qid, st.branchQueue = [] → nextQuestionId bank st = some qid →
      qid ∈ primaryIds bank ∧ qid ∉ st.answered ∧
        ∀ p ∈ (primaryIds bank).takeWhile (fun x => decide (x ≠ qid)),
          p ∈ st.answered) ∧
    (st.branchQueue = [] → (∀ p ∈ primaryIds bank, p ∈ st.answered) →
      nextQuestionId bank st = none) ∧
    (∀ qid, nextQuestionId bank st = some qid → st.branchQueue.head? ≠ some qid →
      qid ∈ primaryIds bank) := by
  refine ⟨?_, ?_, ?_, ?_⟩
  · intro q qs hq
    simp [nextQuestionId, hq]
  · intro qid hq h
    simp only [nextQuestionId, hq] at h
    exact find_first_unanswered h
  · intro hq hall
    simp only [nextQuestionId, hq]
    rw [List.find?_eq_none]
    intro x hx
    simp [hall x hx]
  · intro qid hsome hhead
    cases hq : st.branchQueue with
    | cons q qs =>
      simp only [nextQuestionId, hq] at hsome
      rw [hq] at hhead
      simp only [List.head?] at hhead
      exact absurd hsome hhead
    | nil =>
      simp only [nextQuestionId, hq] at hsome
      exact (find_first_unanswered hsome).1

/-- Witness for C1: on the concrete bank, a non-empty branch queue is served
from its head. -/
theorem nextQuestionId_spec_witness :
    nextQuestionId bankEx ⟨["values_example_followup"], ["values"], ["values_hierarchy"]⟩ =
      some "values_example_followup" :=
  (nextQuestionId_spec bankEx
    ⟨["values_example_followup"], ["values"], ["values_hierarchy"]⟩).1
    "values_example_followup" [] rfl

/-- `_queue_branch` either leaves the state unchanged or appends exactly the
requested target, with all three enqueue conditions holding and the target
dimension recorded as used. -/
theorem queueBranch_eq_or (bank : List Question) (qid : String)
    (st : RespondentState) :
    queueBranch bank qid st = st ∨
    ∃ q0, questionById bank qid = some q0 ∧ q0.dimension ∉ st.usedDims ∧
      qid ∉ st.branchQueue ∧ qid ∉ st.answered ∧
      queueBranch bank qid st =
        { st with branchQueue := st.branchQueue ++ [qid],
                  usedDims := addUsedDim q0.dimension st.usedDims } := by
  unfold queueBranch
  cases h : questionById bank qid with
  | none => exact Or.inl rfl
  | some q0 =>
    by_cases h1 : q0.dimension ∈ st.usedDims
    · exact Or.inl (by simp [h1])
    · by_cases h2 : qid ∉ st.branchQueue ∧ qid ∉ st.answered
      · exact Or.inr ⟨q0, rfl, h1, h2.1, h2.2, by simp [h1, h2]⟩
      · exact Or.inl (by simp [h1, h2])

/-- The element being added is always a member of the updated set. -/
theorem mem_addUsedDim_self (d : String) (dims : List String) :
    d ∈ addUsedDim d dims := by
  unfold addUsedDim
  by_cases h : d ∈ dims
  · simp only [if_pos h]
    exact h
  · simp only [if_neg h]
    exact List.mem_cons_self d dims

/-- Adding to the used-dimension set only grows it. -/
theorem subset_addUsedDim (d : String) (dims : List String) :
    dims ⊆ addUsedDim d dims := by
  unfold addUsedDim
  by_cases h : d ∈ dims
  · simp only [if_pos h]
    exact fun a ha => ha
  · simp only [if_neg h]
    exact List.subset_cons_self d dims

/-- `_queue_branch` never removes a used dimension. -/
theorem usedDims_subset_queueBranch (bank : List Question) (qid : String)
    (st : RespondentState) :
    st.usedDims ⊆ (queueBranch bank qid st).usedDims := by
  rcases queueBranch_eq_or bank qid st with h | ⟨q0, _, _, _, _, h⟩
  · rw [h]
    exact fun a ha => ha
  · rw [h]
    exact subset_addUsedDim q0.dimension st.usedDims

/-- `_maybe_queue_branches` never removes a used dimension. -/
theorem usedDims_subset_maybeQueue (bank : List Question) (txt : String)
    (q : Question) (st : RespondentState) :
    st.usedDims ⊆ (maybeQueueBranches bank txt q st).usedDims := by
  cases hb : q.branch with
  | none => simp [maybeQueueBranches, hb]
  | some b =>
    by_cases h : (pyStrip txt).length < 30
    · simpa [maybeQueueBranches, hb, h] using usedDims_subset_queueBranch bank b st
    · simp [maybeQueueBranches, hb, h]

/-- No assessment-page interaction removes a used dimension. -/
theorem usedDims_subset_step (bank : List Question) (st : RespondentState)
    (op : AssessOp) : st.usedDims ⊆ (stepAssess bank st op).usedDims := by
  cases op with
  | save q txt =>
    exact usedDims_subset_maybeQueue bank txt q st
  | skip q => exact fun a ha => ha

/-- Any enqueued target resolves in the bank to a dimension that was not yet
used before the interaction and is used after it. -/
theorem enqueuedBy_spec (bank : List Question) (st : RespondentState)
    (op : AssessOp) :
    ∀ e ∈ enqueuedBy bank st op,
      ∃ q0, questionById bank e = some q0 ∧ q0.dimension ∉ st.usedDims ∧
        q0.dimension ∈ (stepAssess bank st op).usedDims := by
  cases op with
  | skip q => intro e he; exact absurd he (List.not_mem_nil e)
  | save q txt =>
    intro e he
    cases hb : q.branch with
    | none =>
      simp [enqueuedBy, maybeQueueBranches, hb, List.drop_length] at he
    | some b =>
      by_cases hlen : (pyStrip txt).length < 30
      · simp only [enqueuedBy, maybeQueueBranches, hb, if_pos hlen] at he
        rcases queueBranch_eq_or bank b st with hcase | ⟨q0, hq0, hdim, _, _, hcase⟩
        · rw [hcase, List.drop_length] at he
          exact absurd he (List.not_mem_nil e)
        · rw [hcase] at he
          simp only [List.drop_left] at he
          rcases List.mem_singleton.mp he with rfl
          refine ⟨q0, hq0, hdim, ?_⟩
          have hused : (stepAssess bank st (.save q txt)).usedDims =
              (maybeQueueBranches bank txt q st).usedDims := rfl
          rw [hused]
          simp only [maybeQueueBranches, hb, if_pos hlen, hcase]
          exact mem_addUsedDim_self _ _
      · simp [enqueuedBy, maybeQueueBranches, hb, hlen, List.drop_length] at he

/-- Each interaction enqueues at most one branch target. -/
theorem enqueuedBy_length_le (bank : List Question) (st : RespondentState)
    (op : AssessOp) : (enqueuedBy bank st op).length ≤ 1 := by
  cases op with
  | skip q => simp [enqueuedBy]
  | save q txt =>
    cases hb : q.branch with
    | none => simp [enqueuedBy, maybeQueueBranches, hb, List.drop_length]
    | some b =>
      by_cases hlen : (pyStrip txt).length < 30
      · rcases queueBranch_eq_or bank b st with hcase | ⟨q0, _, _, _, _, hcase⟩
        · simp [enqueuedBy, maybeQueueBranches, hb, hlen, hcase, List.drop_length]
        · simp [enqueuedBy, maybeQueueBranches, hb, hlen, hcase, List.drop_left]
      · simp [enqueuedBy, maybeQueueBranches, hb, hlen, List.drop_length]

/-- Lists of at most one element are vacuously pairwise related. -/
theorem pairwise_of_length_le_one {α : Type} {R : α → α → Prop} {l : List α}
    (h : l.length ≤ 1) : l.Pairwise R := by
  match l with
  | [] => exact List.Pairwise.nil
  | [a] => exact List.pairwise_singleton R a
  | a :: b :: t =>
    simp only [List.length_cons] at h
    omega

/-- Popping the matching head never adds queue elements. -/
theorem mem_popIfHead {qid e : String} {l : List String}
    (h : e ∈ popIfHead qid l) : e ∈ l := by
  cases l with
  | nil => simp [popIfHead] at h
  | cons a t =>
    by_cases ha : a = qid
    · simp only [popIfHead, if_pos ha] at h
      exact List.mem_cons_of_mem _ h
    · simpa [popIfHead, ha] using h

/-- Main induction for dimension exclusivity: running any interaction
sequence extends an enqueue log that stays pairwise dimension-distinct. -/
theorem runAssessLog_pairwise_aux (bank : List Question) :
    ∀ (ops : List AssessOp) (st : RespondentState) (log : List String),
      logDimsOk bank st log → log.Pairwise (dimDiff bank) →
      (log ++ runAssessLog bank st ops).Pairwise (dimDiff bank) := by
  intro ops
  induction ops with
  | nil =>
    intro st log hInv hPw
    rw [show runAssessLog bank st [] = [] from rfl, List.append_nil]
    exact hPw
  | cons op ops ih =>
    intro st log hInv hPw
    have hstep : runAssessLog bank st (op :: ops) =
        enqueuedBy bank st op ++ runAssessLog bank (stepAssess bank st op) ops :=
      rfl
    rw [hstep, ← List.append_assoc]
    apply ih (stepAssess bank st op) (log ++ enqueuedBy bank st op)
    · intro e he
      rcases List.mem_append.mp he with he | he
      · obtain ⟨q0, hq0, hdim⟩ := hInv e he
        exact ⟨q0, hq0, usedDims_subset_step bank st op hdim⟩
      · obtain ⟨q0, hq0, _, hdim⟩ := enqueuedBy_spec bank st op e he
        exact ⟨q0, hq0, hdim⟩
    · rw [List.pairwise_append]
      refine ⟨hPw, pairwise_of_length_le_one (enqueuedBy_length_le bank st op), ?_⟩
      intro x hx y hy
      obtain ⟨qx, hqx, hdx⟩ := hInv x hx
      obtain ⟨qy, hqy, hdy, _⟩ := enqueuedBy_spec bank st op y hy
      unfold dimDiff
      rw [hqx, hqy]
      intro hcontr
      have h2 : qx.dimension = qy.dimension := by simpa using hcontr
      exact hdy (h2 ▸ hdx)

/-- C5: a triggered branch target is enqueued only if its bank entry exists,
its dimension has not yet triggered a branch for this respondent and session,
it is not already queued, and it is not already answered (and then it is
appended at the tail); consequently, over any interaction sequence from a
fresh session state, no two enqueued branch targets share a dimension. -/
theorem branch_dimension_exclusive (bank : List Question) :
    (∀ qid st, (queueBranch bank qid st).branchQueue ≠ st.branchQueue →
      (questionById bank qid).isSome = true) ∧
    (∀ qid st q0, questionById bank qid = some q0 →
      (queueBranch bank qid st).branchQueue ≠ st.branchQueue →
      q0.dimension ∉ st.usedDims ∧ qid ∉ st.branchQueue ∧ qid ∉ st.answered ∧
        (queueBranch bank qid st).branchQueue = st.branchQueue ++ [qid]) ∧
    (∀ ans0 ops,
      (runAssessLog bank ⟨[], [], ans0⟩ ops).Pairwise (dimDiff bank)) := by
  refine ⟨?_, ?_, ?_⟩
  · intro qid st hne
    rcases queueBranch_eq_or bank qid st with h | ⟨q0, hq0, _⟩
    · exact absurd (congrArg RespondentState.branchQueue h) hne
    · rw [hq0]; rfl
  · intro qid st q0 hq0 hne
    rcases queueBranch_eq_or bank qid st with h | ⟨q1, hq1, hdim, hqueue, hans, h⟩
    · exact absurd (congrArg RespondentState.branchQueue h) hne
    · rw [hq0] at hq1
      injection hq1 with hq1
      subst hq1
      exact ⟨hdim, hqueue, hans, by rw [h]⟩
  · intro ans0 ops
    have h := runAssessLog_pairwise_aux bank ops ⟨[], [], ans0⟩ []
      (fun e he => absurd he (List.not_mem_nil e)) List.Pairwise.nil
    simpa using h

/-- Witness for C5: on the concrete bank, enqueuing the values follow-up into
the fresh state satisfies all three conditions and appends it. -/
theorem branch_dimension_exclusive_witness :
    qValuesFollowup.dimension ∉ stEmpty.usedDims ∧
      "values_example_followup" ∉ stEmpty.branchQueue ∧
      "values_example_followup" ∉ stEmpty.answered ∧
      (queueBranch bankEx "values_example_followup" stEmpty).branchQueue =
        stEmpty.branchQueue ++ ["values_example_followup"] :=
  (branch_dimension_exclusive bankEx).2.1 "values_example_followup" stEmpty
    qValuesFollowup (by decide) (by decide)

/-- C4 counterexample: skipping `values_hierarchy` (whose branch target is
`values_example_followup`, with every enqueue condition satisfied in the fresh
state, as the second conjunct shows) leaves the branch queue empty — the Skip
handler never enqueues the branch. -/
theorem skip_never_queues_counterexample :
    (skipStep qValues stEmpty).branchQueue = [] ∧
      (queueBranch bankEx "values_example_followup" stEmpty).branchQueue =
        ["values_example_followup"] := by
  decide

/-- C4 amended: on the `Save and next` path a question with a branch target
triggers the branch exactly when the stripped answer text has fewer than 30
characters (in particular an empty text satisfies the trigger), but the Skip
handler never invokes branch queueing: a skip never adds to the branch
queue. -/
theorem branch_trigger_save_not_skip (bank : List Question) (q : Question)
    (b : String) (txt : String) (st : RespondentState)
    (hb : q.branch = some b) :
    ((pyStrip txt).length < 30 →
      maybeQueueBranches bank txt q st = queueBranch bank b st) ∧
    (30 ≤ (pyStrip txt).length → maybeQueueBranches bank txt q st = st) ∧
    (pyStrip "").length < 30 ∧
    (∀ q2 e, e ∈ (skipStep q2 st).branchQueue → e ∈ st.branchQueue) := by
  refine ⟨?_, ?_, by decide, ?_⟩
  · intro hlen
    simp [maybeQueueBranches, hb, hlen]
  · intro hlen
    simp [maybeQueueBranches, hb, Nat.not_lt.mpr hlen]
  · intro q2 e he
    exact mem_popIfHead he

/-- Witness for C4 (amended): a 2-character answer to `values_hierarchy`
hands its branch target to `_queue_branch`. -/
theorem branch_trigger_save_not_skip_witness :
    maybeQueueBranches bankEx "ok" qValues stEmpty =
      queueBranch bankEx "values_example_followup" stEmpty :=
  (branch_trigger_save_not_skip bankEx qValues "values_example_followup" "ok"
    stEmpty rfl).1 (by decide)

/-- No single interaction resets the acknowledgement flag. -/
theorem mirrorDone_step (st : MirrorState) (op : SessionOp)
    (h : st.mirrorDone = true) : (stepMirror st op).mirrorDone = true := by
  cases op with
  | save q txt => exact h
  | skip q => exact h
  | mirrorOk => rfl
  | mirrorCorrect txt => rfl

/-- Acknowledgement is permanent across any interaction sequence. -/
theorem mirrorDone_run (ops : List SessionOp) :
    ∀ st : MirrorState, st.mirrorDone = true →
      (runMirror st ops).mirrorDone = true := by
  induction ops with
  | nil => intro st h; exact h
  | cons op ops ih =>
    intro st h
    exact ih (stepMirror st op) (mirrorDone_step st op h)

/-- C6: the mirror-moment gate is shown exactly when it has not been
acknowledged and at least 5 primary questions are answered; confirming sets
the flag, and saving a correction persists a synthetic answer under the
reserved `mirror_correction` question id with dimension `meta` and sets the
flag; once the flag is set, no interaction sequence ever shows the gate
again for that (session, respondent). -/
theorem mirror_gate_spec (bank : List Question) (st : MirrorState)
    (txt : String) :
    (mirrorShown bank st = true ↔
      st.mirrorDone = false ∧ 5 ≤ primaryDone bank st.responses) ∧
    ((mirrorContinue st).mirrorDone = true ∧
      (mirrorSaveCorrection txt st).mirrorDone = true ∧
      (mirrorSaveCorrection txt st).responses =
        st.responses ++ [⟨"mirror_correction", pyStrip txt, some "meta"⟩]) ∧
    (∀ ops, st.mirrorDone = true →
      (runMirror st ops).mirrorDone = true ∧
      mirrorShown bank (runMirror st ops) = false) := by
  refine ⟨?_, ⟨rfl, rfl, rfl⟩, ?_⟩
  · simp [mirrorShown]
  · intro ops h
    have hdone := mirrorDone_run ops st h
    refine ⟨hdone, ?_⟩
    unfold mirrorShown
    rw [hdone]
    rfl

/-- Witness for C6: an acknowledged state stays acknowledged and hidden after
a further answer. -/
theorem mirror_gate_spec_witness :
    (runMirror ⟨true, []⟩ [SessionOp.save qValues "hello"]).mirrorDone = true ∧
      mirrorShown bankEx (runMirror ⟨true, []⟩ [SessionOp.save qValues "hello"]) =
        false :=
  (mirror_gate_spec bankEx ⟨true, []⟩ "x").2.2 [SessionOp.save qValues "hello"] rfl

/-- C2 counterexample: from the no-open-session state, two `start` calls (the
second issued while `get_open_session` already reports an open session) both
succeed without any conflict error, leaving two open sessions. -/
theorem start_no_conflict_counterexample :
    create_session 0 "s1" "r" "duo" none [] = some dbAfterS1 ∧
    get_open_session "r" dbAfterS1 ≠ none ∧
    create_session 1 "s2" "r" "duo" none dbAfterS1 = some dbAfterS2 ∧
    (openSessions "r" dbAfterS2).length = 2 := by
  decide

/-- C2 amended: `create_session` performs no open-session check — it fails
only on a duplicate session id (primary-key violation) and otherwise appends
a new open session unconditionally, so a second `start` with a fresh id
always succeeds and adds a second open session; the UI only hides the Start
button when an open session was visible at render time. -/
theorem create_session_no_conflict_check (now : Nat) (sid rid mode : String)
    (tone : Option String) (db : List Session) :
    (create_session now sid rid mode tone db = none ↔
      db.any (fun s => s.session_id == sid) = true) ∧
    (∀ db1, create_session now sid rid mode tone db = some db1 →
      openSessions rid db1 =
        openSessions rid db ++ [⟨sid, rid, mode, tone, now, none⟩]) := by
  constructor
  · by_cases h : db.any (fun s => s.session_id == sid) = true
    · simp [create_session, h]
    · simp [create_session, h]
  · intro db1 h1
    by_cases h : db.any (fun s => s.session_id == sid) = true
    · simp [create_session, h] at h1
    · simp only [create_session, if_neg h, Option.some.injEq] at h1
      subst h1
      simp [openSessions, List.filter_append]

/-- Witness for C2 (amended): the second start appends a second open
session. -/
theorem create_session_no_conflict_check_witness :
    openSessions "r" dbAfterS2 =
      openSessions "r" dbAfterS1 ++ [⟨"s2", "r", "duo", none, 1, none⟩] :=
  (create_session_no_conflict_check 1 "s2" "r" "duo" none dbAfterS1).2
    dbAfterS2 (by decide)

/-- Unfolding `end_session` over a cons cell. -/
theorem end_session_cons (now : Nat) (sid : String) (a : Session)
    (t : List Session) :
    end_session now sid (a :: t) =
      (if a.session_id == sid then { a with ended_at := some now } else a) ::
        end_session now sid t := rfl

/-- A second `end_session` behaves as if the first had never happened: the
update is unconditional. -/
theorem end_session_absorb (t1 t2 : Nat) (sid : String) (db : List Session) :
    end_session t2 sid (end_session t1 sid db) = end_session t2 sid db := by
  unfold end_session
  rw [List.map_map]
  apply List.map_congr_left
  intro s _
  simp only [Function.comp_apply]
  by_cases hs : (s.session_id == sid) = true
  · rw [if_pos hs,
      if_pos (show (({ s with ended_at := some t1 } : Session).session_id == sid) = true from hs),
      if_pos hs]
  · rw [if_neg hs, if_neg hs]

/-- The open-session view after `end_session` does not depend on the
timestamp written. -/
theorem openSessions_cons (rid : String) (a : Session) (t : List Session) :
    openSessions rid (a :: t) =
      if a.relationship_id == rid && a.ended_at.isNone then
        a :: openSessions rid t
      else openSessions rid t := by
  simp only [openSessions, List.filter_cons]

/-- The open-session view after an `end_session` is the same for any
timestamp. -/
theorem openSessions_end_session_time (t1 t2 : Nat) (sid rid : String)
    (db : List Session) :
    openSessions rid (end_session t2 sid db) =
      openSessions rid (end_session t1 sid db) := by
  induction db with
  | nil => rfl
  | cons a d ih =>
    rw [end_session_cons, end_session_cons, openSessions_cons, openSessions_cons]
    by_cases ha : (a.session_id == sid) = true
    · rw [if_pos ha, if_pos ha]
      have h2 : ∀ t : Nat,
          (({ a with ended_at := some t } : Session).relationship_id == rid &&
            ({ a with ended_at := some t } : Session).ended_at.isNone) = false := by
        intro t
        simp
      rw [h2 t1, h2 t2]
      simpa using ih
    · rw [if_neg ha, if_neg ha]
      by_cases hc : (a.relationship_id == rid && a.ended_at.isNone) = true
      · rw [if_pos hc, if_pos hc, ih]
      · rw [if_neg hc, if_neg hc, ih]

/-- C7 counterexample: ending the same session at time 1 and again at time 2
does not leave the table of one `end` call — the second call overwrites the
stored end timestamp, so it is not a no-op. -/
theorem end_session_twice_counterexample :
    end_session 2 "s1" (end_session 1 "s1" dbOneOpen) ≠
      end_session 1 "s1" dbOneOpen := by
  decide

/-- C7 amended: a second `end_session` is accepted (never an error) and the
session stays ended — the open-session view is unchanged — but the stored end
timestamp is overwritten with the time of the second call, so the full stored
state after two calls equals the state after one only when both calls carry
the same timestamp. -/
theorem end_session_idempotent_observably (t1 t2 : Nat) (sid : String)
    (db : List Session) :
    (end_session t2 sid (end_session t1 sid db) = end_session t2 sid db) ∧
    (t1 = t2 →
      end_session t2 sid (end_session t1 sid db) = end_session t1 sid db) ∧
    (∀ rid, openSessions rid (end_session t2 sid (end_session t1 sid db)) =
      openSessions rid (end_session t1 sid db)) := by
  refine ⟨end_session_absorb t1 t2 sid db, ?_, ?_⟩
  · intro he
    subst he
    exact end_session_absorb t1 t1 sid db
  · intro rid
    rw [end_session_absorb t1 t2 sid db]
    exact openSessions_end_session_time t1 t2 sid rid db

/-- Witness for C7 (amended): with equal timestamps the double call equals
the single call on the concrete table. -/
theorem end_session_idempotent_observably_witness :
    end_session 1 "s1" (end_session 1 "s1" dbOneOpen) =
      end_session 1 "s1" dbOneOpen :=
  (end_session_idempotent_observably 1 1 "s1" dbOneOpen).2.1 rfl

/-- `find?` skips a prefix in which nothing matches. -/
theorem find?_append_of_none {p : Invite → Bool} {l1 : List Invite}
    (l2 : List Invite) (h : l1.find? p = none) :
    (l1 ++ l2).find? p = l2.find? p := by
  induction l1 with
  | nil => rfl
  | cons a t ih =>
    rw [List.cons_append]
    cases hp : p a with
    | true =>
      exfalso
      simp [List.find?, hp] at h
    | false =>
      simp only [List.find?, hp] at h ⊢
      exact ih h

/-- Unfolding `mark_invite_used` over a cons cell. -/
theorem mark_invite_used_cons (now : Nat) (tok : String) (a : Invite)
    (t : List Invite) :
    mark_invite_used now tok (a :: t) =
      (if a.token == tok && a.used_at.isNone then { a with used_at := some now }
       else a) :: mark_invite_used now tok t := rfl

/-- C8 counterexample: a forced respondent who merely reaches the answering
view of an active session — having submitted no answer at all — already gets
the invite marked used. -/
theorem invite_marked_before_any_answer_counterexample :
    [invEx].map Invite.used_at = [none] ∧
    (renderAssess 5 "tok" ⟨[invEx], some "s1", false⟩).invites.map
        Invite.used_at = [some 5] := by
  decide

/-- C8 amended: an invite is created unused; resolving the token without an
active session marks nothing; the invite is marked used the first time the
answering view of the forced respondent renders with an active session — which
precedes any answer submission; and marking an already-used invite is a
no-op, not an error. -/
theorem invite_marking_spec (now t1 t2 : Nat) (tok rid resp : String)
    (db : List Invite) (ctx : InviteContext) :
    (∀ db1, create_invite now tok rid resp db = some db1 →
      get_invite tok db1 = some ⟨tok, rid, resp, now, none⟩) ∧
    (renderAssess now tok ⟨db, none, ctx.localMarked⟩ =
      ⟨db, none, ctx.localMarked⟩) ∧
    (∀ sid, ctx.sessionId = some sid → ctx.localMarked = false →
      (renderAssess now tok ctx).invites = mark_invite_used now tok ctx.invites) ∧
    (mark_invite_used t2 tok (mark_invite_used t1 tok db) =
      mark_invite_used t1 tok db) := by
  refine ⟨?_, rfl, ?_, ?_⟩
  · intro db1 h1
    by_cases h : db.any (fun i => i.token == tok) = true
    · simp [create_invite, h] at h1
    · simp only [create_invite, if_neg h, Option.some.injEq] at h1
      subst h1
      have hnone : db.find? (fun i => i.token == tok) = none := by
        rw [List.find?_eq_none]
        intro i hi
        intro hcontra
        exact h (List.any_eq_true.mpr ⟨i, hi, hcontra⟩)
      rw [get_invite, find?_append_of_none _ hnone]
      simp [List.find?]
  · intro sid hs hm
    obtain ⟨inv, s, lm⟩ := ctx
    simp only at hs hm
    subst hs
    subst hm
    rfl
  · unfold mark_invite_used
    rw [List.map_map]
    apply List.map_congr_left
    intro i _
    simp only [Function.comp_apply]
    by_cases hc : (i.token == tok && i.used_at.isNone) = true
    · rw [if_pos hc]
      have h2 : (({ i with used_at := some t1 } : Invite).token == tok &&
          ({ i with used_at := some t1 } : Invite).used_at.isNone) = false := by
        simp
      simp [h2]
    · rw [if_neg hc, if_neg hc]

/-- Witness for C8 (amended): on the concrete context with an active session
and no prior marking, rendering the answering view marks the invite. -/
theorem invite_marking_spec_witness :
    (renderAssess 5 "tok" ⟨[invEx], some "s1", false⟩).invites =
      mark_invite_used 5 "tok" [invEx] :=
  (invite_marking_spec 5 0 0 "tok" "r" "B" [invEx]
    ⟨[invEx], some "s1", false⟩).2.2.1 "s1" rfl rfl

/-- Marking an invite used changes neither resolvability nor the pinned
identity. -/
theorem get_invite_mark_eq (tok : String) (t : Nat) (db : List Invite) :
    ((get_invite tok (mark_invite_used t tok db)).map
        (fun i => (i.relationship_id, i.respondent)) =
      (get_invite tok db).map (fun i => (i.relationship_id, i.respondent))) ∧
    ((get_invite tok (mark_invite_used t tok db)).isSome =
      (get_invite tok db).isSome) := by
  induction db with
  | nil => exact ⟨rfl, rfl⟩
  | cons a d ih =>
    by_cases ha : (a.token == tok) = true
    · by_cases hu : a.used_at.isNone = true
      · constructor
        · simp [get_invite, mark_invite_used, List.find?, ha, hu]
        · simp [get_invite, mark_invite_used, List.find?, ha, hu]
      · constructor
        · simp [get_invite, mark_invite_used, List.find?, ha, hu]
        · simp [get_invite, mark_invite_used, List.find?, ha, hu]
    · constructor
      · simpa [get_invite, mark_invite_used, List.find?, ha] using ih.1
      · simpa [get_invite, mark_invite_used, List.find?, ha] using ih.2

/-- C10: invite resolution never consults the used flag — `get_invite`
returns the row for a token whether or not it has been marked used, with the
pinned relationship and forced respondent unchanged; resolution fails exactly
for a token that no invite row carries; and a resolved invite always carries
the queried token. -/
theorem get_invite_never_consults_used (tok : String) (t : Nat)
    (db : List Invite) :
    ((get_invite tok (mark_invite_used t tok db)).map
        (fun i => (i.relationship_id, i.respondent)) =
      (get_invite tok db).map (fun i => (i.relationship_id, i.respondent))) ∧
    ((get_invite tok (mark_invite_used t tok db)).isSome =
      (get_invite tok db).isSome) ∧
    (get_invite tok db = none ↔ ∀ i ∈ db, ¬(i.token = tok)) ∧
    (∀ i, get_invite tok db = some i → i.token = tok) := by
  refine ⟨(get_invite_mark_eq tok t db).1, (get_invite_mark_eq tok t db).2,
    ?_, ?_⟩
  · rw [get_invite, List.find?_eq_none]
    simp
  · intro i h
    have := List.find?_some h
    simpa using this

/-- Witness for C10: the concrete used invite still resolves to the same
pinned identity, and a resolved invite carries the queried token. -/
theorem get_invite_never_consults_used_witness :
    ((get_invite "tok" (mark_invite_used 3 "tok" [invEx])).map
        (fun i => (i.relationship_id, i.respondent)) =
      (get_invite "tok" [invEx]).map
        (fun i => (i.relationship_id, i.respondent))) ∧
    invEx.token = "tok" :=
  ⟨(get_invite_never_consults_used "tok" 3 [invEx]).1,
    (get_invite_never_consults_used "tok" 3 [invEx]).2.2.2 invEx rfl⟩

/-- Characterization of the `_validate_bank` loop: success means every entry
has an id, the ids are pairwise distinct, and none collides with the `seen`
accumulator. -/
theorem validateBankLoop_ok_iff (bank : List RawQuestion) :
    ∀ seen : List String,
      (validateBankLoop bank seen = .ok () ↔
        (∀ q ∈ bank, q.id ≠ none) ∧ (bankIds bank).Nodup ∧
          ∀ i ∈ bankIds bank, i ∉ seen) := by
  induction bank with
  | nil =>
    intro seen
    simp [validateBankLoop, bankIds]
  | cons q rest ih =>
    intro seen
    cases hid : q.id with
    | none =>
      simp [validateBankLoop, hid, List.forall_mem_cons]
    | some i =>
      by_cases hseen : i ∈ seen
      · simp [validateBankLoop, hid, hseen, bankIds, List.filterMap_cons,
          List.forall_mem_cons]
      · rw [show validateBankLoop (q :: rest) seen =
            validateBankLoop rest (i :: seen) from by
          simp [validateBankLoop, hid, hseen]]
        rw [ih (i :: seen)]
        have hids : bankIds (q :: rest) = i :: bankIds rest := by
          simp [bankIds, List.filterMap_cons, hid]
        constructor
        · rintro ⟨h1, h2, h3⟩
          refine ⟨?_, ?_, ?_⟩
          · intro q2 hq2
            rcases List.mem_cons.mp hq2 with rfl | hq2
            · rw [hid]
              simp
            · exact h1 q2 hq2
          · rw [hids, List.nodup_cons]
            refine ⟨?_, h2⟩
            intro hmem
            exact (h3 i hmem) (List.mem_cons_self i seen)
          · rw [hids]
            intro i2 hi2
            rcases List.mem_cons.mp hi2 with rfl | hi2
            · exact hseen
            · intro hcontra
              exact (h3 i2 hi2) (List.mem_cons_of_mem i hcontra)
        · rintro ⟨h1, h2, h3⟩
          rw [hids] at h2 h3
          rw [List.nodup_cons] at h2
          refine ⟨?_, h2.2, ?_⟩
          · intro q2 hq2
            exact h1 q2 (List.mem_cons_of_mem q hq2)
          · intro i2 hi2
            intro hcontra
            rcases List.mem_cons.mp hcontra with rfl | hc2
            · exact h2.1 hi2
            · exact (h3 i2 (List.mem_cons_of_mem i hi2)) hc2

/-- The `_validate_bank` loop never inspects branch targets. -/
theorem validateBankLoop_ignores_branch (f : RawQuestion → Option String)
    (bank : List RawQuestion) :
    ∀ seen : List String,
      validateBankLoop (bank.map (fun q => { q with branch := f q })) seen =
        validateBankLoop bank seen := by
  induction bank with
  | nil => intro seen; rfl
  | cons q rest ih =>
    intro seen
    cases hid : q.id with
    | none => simp [validateBankLoop, hid]
    | some i =>
      by_cases hseen : i ∈ seen
      · simp [validateBankLoop, hid, hseen]
      · simp [validateBankLoop, hid, hseen, ih]

/-- C9 counterexample: a bank whose only branch target names no existing
question id passes validation — the loader does not reject dangling branch
references. -/
theorem validate_accepts_dangling_counterexample :
    danglingBranch bankDangling = true ∧
      validate_bank bankDangling = .ok () :=
  ⟨rfl, rfl⟩

/-- C9 amended: load-time validation rejects a missing question id and a
duplicate question id (success is exactly: every entry has an id and the ids
are pairwise distinct), but it never inspects branch targets, so a dangling
branch reference passes validation unchanged. -/
theorem validate_bank_spec (bank : List RawQuestion)
    (f : RawQuestion → Option String) :
    (validate_bank bank = .ok () ↔
      (∀ q ∈ bank, q.id ≠ none) ∧ (bankIds bank).Nodup) ∧
    validate_bank (bank.map (fun q => { q with branch := f q })) =
      validate_bank bank := by
  constructor
  · rw [validate_bank, validateBankLoop_ok_iff bank []]
    simp
  · rw [validate_bank, validate_bank, validateBankLoop_ignores_branch f bank []]

/-- Witness for C9 (amended): the dangling-branch bank satisfies the success
characterization. -/
theorem validate_bank_spec_witness :
    validate_bank bankDangling = .ok () :=
  ((validate_bank_spec bankDangling (fun _ => none)).1).mpr (by decide)

/-- C3: on the failing input — A answering the closeness question of the bank
(`closeness_numeric`, questions.py) with "3" and B with "9" in duo mode — the
detector emits no contradiction, because it reads the answers under the
question id `closeness_space`, which the bank does not contain; storing the
same two answers under `closeness_space` makes it emit exactly the claimed
pair contradiction carrying both numbers. -/
theorem closeness_contradiction_dead_key :
    detect_contradictions mapA3 mapB9 "duo" = [] ∧
    detect_contradictions mapA3space mapB9space "duo" =
      [⟨"pair", "Closeness vs space needs appear far apart",
        [.num "A closeness number" 3, .num "B closeness number" 9]⟩] := by
  constructor
  · have hsp : isTokenChar ' ' = false := by decide
    simp [detect_contradictions, mapA3, mapB9, lookupD, find_closeness,
      scanNums, token_set, runsOf, List.find?, hsp]
  · have hscan3 : scanNums "3".toList = [(3 : ℚ)] := by
      simp [scanNums, digitsVal]
    have hscan9 : scanNums "9".toList = [(9 : ℚ)] := by
      simp [scanNums, digitsVal]
    have hf3 : find_closeness "3" = some 3 := by
      rw [find_closeness, hscan3]
      have hle1 : (0 : ℚ) ≤ 3 := by norm_num
      have hle2 : (3 : ℚ) ≤ 10 := by norm_num
      simp [List.find?, hle1, hle2]
    have hf9 : find_closeness "9" = some 9 := by
      rw [find_closeness, hscan9]
      have hle1 : (0 : ℚ) ≤ 9 := by norm_num
      have hle2 : (9 : ℚ) ≤ 10 := by norm_num
      simp [List.find?, hle1, hle2]
    have habs : (4 : ℚ) ≤ |(3 : ℚ) - 9| := by
      have h6 : |(3 : ℚ) - 9| = 6 := by
        rw [show (3 : ℚ) - 9 = -6 by norm_num, abs_neg]
        norm_num
      rw [h6]
      norm_num
    have hA : lookupD mapA3space "closeness_space" = "3" := rfl
    have hB : lookupD mapB9space "closeness_space" = "9" := rfl
    simp only [detect_contradictions, hA, hB, hf3, hf9]
    rw [if_pos habs]
    simp [lookupD, mapA3space, mapB9space, token_set, runsOf, isTokenChar,
      List.find?]

end SeeUs
